import Mathlib

/-!
Verification development for the rag-cli agent execution engine.

The Go sources under `internal/chat` (session, evaluator, validator,
executor) and `internal/indexing` (auto-indexer) are shallowly embedded
below.  External collaborators (the operating shell, the language model,
the embedding service, the vector store, standard input) are modelled as
oracle functions supplied as parameters; machine `int` values are `Int`;
Go strings are Lean `String` (lists of characters).
-/

namespace RagCli

/-! ## Go standard-library string primitives, modelled on `List Char` -/

/-- Model of Go's ASCII whitespace set used by `strings.TrimSpace`. -/
def goIsSpace (c : Char) : Bool :=
  c = ' ' || c = '\t' || c = '\n' || c = '\x0b' || c = '\x0c' || c = '\r'

/-- `chPre p l` is true when `p` is a leading segment of `l`
(Go `strings.HasPrefix` on rune lists). -/
def chPre : List Char → List Char → Bool
  | [], _ => true
  | _ :: _, [] => false
  | a :: as, b :: bs => a == b && chPre as bs

/-- `chSub p l` is true when `p` occurs contiguously inside `l`
(Go `strings.Contains` on rune lists). -/
def chSub (p : List Char) : List Char → Bool
  | [] => chPre p []
  | c :: cs => chPre p (c :: cs) || chSub p cs

/-- Go `strings.Contains`. -/
def containsSub (s pat : String) : Bool := chSub pat.toList s.toList

/-- Go `strings.HasPrefix`. -/
def goHasPref (s pre : String) : Bool := chPre pre.toList s.toList

/-- Drop leading whitespace characters. -/
def trimL : List Char → List Char
  | [] => []
  | c :: cs => if goIsSpace c then trimL cs else c :: cs

/-- Drop trailing whitespace characters. -/
def trimR (l : List Char) : List Char := (trimL l.reverse).reverse

/-- Go `strings.TrimSpace`. -/
def goTrimSpace (s : String) : String := ⟨trimR (trimL s.toList)⟩

/-- Go `strings.ToUpper` (ASCII case mapping). -/
def goToUpper (s : String) : String := ⟨s.toList.map Char.toUpper⟩

/-- Go `strings.ToLower` (ASCII case mapping). -/
def goToLower (s : String) : String := ⟨s.toList.map Char.toLower⟩

/-- Successful-parse predicate of Go `strconv.Atoi`: an optional sign,
then at least one decimal digit, and the value fits in a signed 64-bit
integer. -/
def goAtoiOk (s : String) : Bool :=
  match s.toList with
  | [] => false
  | c :: rest =>
    let digits := if c = '+' || c = '-' then rest else c :: rest
    (!digits.isEmpty) && digits.all (fun d => d.isDigit) &&
      (let n : Nat := digits.foldl (fun a d => a * 10 + (d.toNat - 48)) 0
       if c = '-' then n ≤ 2 ^ 63 else n ≤ 2 ^ 63 - 1)

/-- Split on newline characters, matching Go `strings.Split(s, "\n")`. -/
def splitLines : List Char → List (List Char)
  | [] => [[]]
  | c :: cs =>
    if c = '\n' then [] :: splitLines cs
    else
      match splitLines cs with
      | [] => [[c]]
      | h :: t => (c :: h) :: t

/-- Worker for `goSplit`; `fuel` bounds the scan and is initialised to the
length of the text, which suffices for a nonempty separator. -/
def goSplitAux (sep : List Char) : Nat → List Char → List Char → List (List Char)
  | _, [], acc => [acc.reverse]
  | 0, l, acc => [acc.reverse ++ l]
  | fuel + 1, c :: cs, acc =>
    if chPre sep (c :: cs) then
      acc.reverse :: goSplitAux sep fuel (List.drop sep.length (c :: cs)) []
    else goSplitAux sep fuel cs (c :: acc)

/-- Go `strings.Split` for a nonempty separator. -/
def goSplit (s sep : String) : List String :=
  if sep = "" then [s]
  else (goSplitAux sep.toList s.toList.length s.toList []).map (fun l => ⟨l⟩)

/-! ## Command Validator (`internal/chat/validator.go`) -/

/-- `CommandValidator.IsValid`: noise filter over a single line of
language-model output. -/
def IsValid (cmd : String) : Bool :=
  if cmd = "" then false
  else if goHasPref cmd "$" || goHasPref cmd "#" || goHasPref cmd ">" then false
  else if goTrimSpace cmd = "" then false
  else if containsSub cmd "\n" then false
  else if containsSub cmd "drwxr-xr-x" || containsSub cmd "total " then false
  else if decide (goTrimSpace cmd ≠ "") && goAtoiOk (goTrimSpace cmd) then false
  else if containsSub cmd "Error:" || containsSub cmd "command not found" then false
  else true

/-- `CommandValidator.ParseCommands`: split a response on newlines, trim,
and keep the lines accepted by `IsValid`, in order. -/
def ParseCommands (response : String) : List String :=
  let r := goTrimSpace response
  if r = "" then []
  else
    let cmds := (splitLines r.toList).map (fun l => goTrimSpace ⟨l⟩)
    cmds.filter (fun c => decide (c ≠ "") && IsValid c)

/-! ## AI Evaluator response handling (`internal/chat/evaluator.go`) -/

/-- Response-processing core of `AIEvaluator.determineNextCommands`: the
model's reply is trimmed, a literal `"NONE"` or an empty reply yields no
commands, anything else is parsed through the Command Validator. -/
def determineNextCommands (response : String) : List String :=
  let r := goTrimSpace response
  if r = "NONE" ∨ r = "" then [] else ParseCommands r

/-- The no-queue branch of `AIEvaluator.EvaluateAndGetNextCommands`:
forwards `determineNextCommands` and continues iff it produced commands. -/
def evaluateNoQueue (response : String) : List String × Bool :=
  let next := determineNextCommands response
  (next, decide (next.length > 0))

/-- Decision core of `AIEvaluator.checkGoalAchievement`, as a function of
the model's reply, the execution log and the original request. -/
def checkGoalAchievement (response executionLog originalRequest : String) : Bool :=
  let clean := goTrimSpace (goToUpper response)
  let result := clean = "YES" || clean = "Y" ||
    containsSub clean "YES" || containsSub clean "ACHIEVED" ||
    containsSub clean "COMPLETED" || containsSub clean "SUCCESS"
  if containsSub (goToLower originalRequest) "time" &&
     containsSub executionLog "$ date" && !containsSub executionLog "Error:" then
    true
  else result

/-! ## Command Executor (`internal/chat/executor.go`)

The operating shell is an oracle: `combined` models
`exec.Command("sh","-c",cmd).CombinedOutput()` as combined output plus an
optional error text, and `run` models one pipeline stage run with separate
stdout/stderr capture, indexed by the number of prior stage runs, given
the optional stdin contents. -/

structure StageRes where
  stdout : String
  stderr : String
  err : Option String

structure Shell where
  combined : String → String × Option String
  run : Nat → String → Option String → StageRes

/-- The per-stage loop of `executePipedCommand`: `i` is the position in
the split parts, `lastIdx` the index of the final part, `k` counts stage
subprocess launches, `cur` is the previous stage's raw stdout and
`details` the accumulated diagnostic text. -/
def pipeLoop (sh : Shell) (lastIdx : Nat) :
    List String → Nat → Nat → String → String → String × Option String
  | [], _, _, cur, _ => (cur, none)
  | p :: rest, i, k, cur, details =>
    let part := goTrimSpace p
    if part = "" then pipeLoop sh lastIdx rest (i + 1) k cur details
    else
      let r := sh.run k part (if i > 0 && cur.length > 0 then some cur else none)
      match r.err with
      | some e =>
        if i > 0 then
          let d := details ++ "Steps 1-" ++ toString i ++ " succeeded. " ++
            "Step " ++ toString (i + 1) ++ " failed: " ++ part ++
            (if r.stderr ≠ "" then " (stderr: " ++ r.stderr ++ ")" else "") ++
            (if cur.length > 0 then "\nIntermediate output from previous steps:\n" ++ cur else "")
          (d, some ("pipe step " ++ toString (i + 1) ++ " failed: " ++ e))
        else
          (r.stdout ++ (if r.stderr ≠ "" then "\nstderr: " ++ r.stderr else ""),
           some ("command failed: " ++ e))
      | none =>
        let combined := r.stdout ++ (if r.stderr ≠ "" then "\nstderr: " ++ r.stderr else "")
        if i < lastIdx then
          pipeLoop sh lastIdx rest (i + 1) (k + 1) r.stdout
            (details ++ "Step " ++ toString (i + 1) ++ " (" ++ part ++ "): " ++
              toString r.stdout.length ++ " bytes of output\n")
        else (combined, none)

/-- `CommandExecutor.executePipedCommand`. -/
def executePipedCommand (sh : Shell) (cmdStr : String) : String × Option String :=
  let parts := goSplit cmdStr " | "
  if parts.length < 2 then
    match (sh.combined cmdStr).2 with
    | some e => ((sh.combined cmdStr).1, some ("command failed: " ++ e))
    | none => ((sh.combined cmdStr).1, none)
  else pipeLoop sh (parts.length - 1) parts 0 0 "" ""

/-- `CommandExecutor.Execute`. -/
def Execute (sh : Shell) (cmdStr : String) : String × Option String :=
  if containsSub cmdStr " | " then executePipedCommand sh cmdStr
  else
    match (sh.combined cmdStr).2 with
    | some e => ((sh.combined cmdStr).1, some ("command failed: " ++ e))
    | none => ((sh.combined cmdStr).1, none)

/-! ## Change Detector (`internal/indexing/auto_indexer.go`)

The filesystem is abstracted as the sequence of entries `filepath.Walk`
visits, plus a `stat` oracle for the re-stat done by `shouldTrackFile`;
glob matching (`filepath.Match`) is an oracle in the configuration. -/

structure FileInfo where
  path : String
  size : Int
  modTime : Int
  hash : String
deriving DecidableEq

structure WalkEntry where
  walkErr : Bool
  isDir : Bool
  relOk : Bool
  relPath : String
  size : Int
  modTime : Int
  hash : Option String

structure FsView where
  walk : List WalkEntry
  stat : String → Option Int

structure AutoIndexCfg where
  enabled : Bool
  maxFileSize : Int
  excludePatterns : List String
  extensions : List String
  matchGlob : String → String → Bool

structure AutoIndexerSt where
  lastSnapshot : List (String × FileInfo)

/-- Go `strings.TrimSuffix`. -/
def goTrimSuffix (s suf : String) : String :=
  if chPre suf.toList.reverse s.toList.reverse then
    ⟨s.toList.take (s.toList.length - suf.toList.length)⟩
  else s

/-- Go `filepath.Ext`: the suffix of the final path segment starting at
its last dot, or the empty string. -/
def goExt (p : String) : String :=
  let seg := p.toList.reverse.takeWhile (fun c => c ≠ '/')
  if seg.any (fun c => c = '.') then ⟨'.' :: (seg.takeWhile (fun c => c ≠ '.')).reverse⟩
  else ""

/-- `AutoIndexer.shouldTrackFile`. -/
def shouldTrackFile (cfg : AutoIndexCfg) (stat : String → Option Int) (relPath : String) : Bool :=
  if !cfg.enabled then false
  else if cfg.maxFileSize > 0 &&
      (match stat relPath with
       | some sz => decide (sz > cfg.maxFileSize)
       | none => false) then false
  else if cfg.excludePatterns.any (fun pat =>
      cfg.matchGlob pat relPath || containsSub relPath (goTrimSuffix pat "/*")) then false
  else if !cfg.extensions.isEmpty &&
      !cfg.extensions.any (fun ae =>
        (goExt relPath).toList.map Char.toLower = ae.toList.map Char.toLower) then false
  else true

/-- First-match association lookup, modelling reads of the Go snapshot map. -/
def lookupSnap : List (String × FileInfo) → String → Option FileInfo
  | [], _ => none
  | (k, v) :: rest, key => if k = key then some v else lookupSnap rest key

/-- The walk callback of `DetectChanges`, folded over the visited entries:
accumulates the changed paths and the freshly built (local) current
snapshot without touching the stored one. -/
def detectChangesList (cfg : AutoIndexCfg) (fs : FsView)
    (last : List (String × FileInfo)) : List String :=
  (fs.walk.foldl (fun (acc : List String × List (String × FileInfo)) e =>
    if e.walkErr then acc
    else if e.isDir then acc
    else if !e.relOk then acc
    else if !shouldTrackFile cfg fs.stat e.relPath then acc
    else
      match e.hash with
      | none => acc
      | some h =>
        let cur := acc.2 ++ [(e.relPath, ⟨e.relPath, e.size, e.modTime, h⟩)]
        match lookupSnap last e.relPath with
        | none => (acc.1 ++ [e.relPath], cur)
        | some lastFi => if lastFi.hash ≠ h then (acc.1 ++ [e.relPath], cur) else (acc.1, cur))
    ([], [])).1

/-- `AutoIndexer.DetectChanges`: reads the stored snapshot under a read
lock and returns the changed paths; the indexer state is returned
unchanged because the method never assigns to `lastSnapshot`. -/
def DetectChanges (cfg : AutoIndexCfg) (ai : AutoIndexerSt) (fs : FsView) :
    List String × AutoIndexerSt :=
  (detectChangesList cfg fs ai.lastSnapshot, ai)

/-! ## Agent Session (`internal/chat/session.go`)

Collaborators are oracles indexed by the number of prior calls of the
same kind: `stdin` yields the line read by each permission prompt, `exec`
models `CommandExecutor.Execute`, `eval` models
`AIEvaluator.EvaluateAndGetNextCommands`, `finalAnswer` models
`AIEvaluator.GenerateFinalAnswer` and `store` models
`AIEvaluator.StoreExecutionSession`.  An event trace records each
collaborator interaction in order. -/

structure SessionConfig where
  autoApprove : Bool
  autoIndex : Bool
  noHistory : Bool
  maxAttempts : Int
  maxOutputLines : Int
  truncateOutput : Bool

structure EvalRes where
  next : List String
  cont : Bool
  err : Option String

structure Collab where
  stdin : Nat → String
  exec : Nat → String → String × Option String
  eval : Nat → String → String → List String → Bool → EvalRes
  finalAnswer : Nat → String → String → String × Option String
  store : String → Option String

inductive Event where
  | prompt (cmd : String) (granted : Bool)
  | exec (cmd : String) (output : String) (err : Option String)
  | evalCall (next : List String) (cont : Bool) (err : Option String)
  | finalAns (answer : String) (err : Option String)
  | storeCall (err : Option String)

structure SState where
  log : String
  lastErr : Option String
  stdinIdx : Nat
  execIdx : Nat
  evalIdx : Nat
  faIdx : Nat
  events : List Event

structure DrainRes where
  queue : List String
  st : SState
  cancelled : Bool

structure RunOut where
  result : String
  rerr : Option String
  queue : List String
  st : SState

/-- `Session.requestPermission`, as a function of the line read from
standard input: lower-cased and trimmed, the empty reply and `y`/`yes`
grant permission, anything else denies. -/
def requestPermission (line : String) : Bool :=
  let p := goTrimSpace (goToLower line)
  p = "" || p = "y" || p = "yes"

/-- The inner command loop of `executeCommandsIteratively`: pop commands
from the front, gate each one on approval unless auto-approved, execute
it, append to the log; stop the round on the first failure, or return
`cancelled` when the user denies a prompt. -/
def drain (C : Collab) (auto : Bool) : List String → SState → DrainRes
  | [], st => ⟨[], st, false⟩
  | cmd :: rest, st =>
    let g := auto || requestPermission (C.stdin st.stdinIdx)
    let st1 := if auto then st else
      { st with stdinIdx := st.stdinIdx + 1,
                events := st.events ++ [Event.prompt cmd (requestPermission (C.stdin st.stdinIdx))] }
    if g = false then ⟨rest, st1, true⟩
    else
      let r := C.exec st1.execIdx cmd
      let st2 := { st1 with execIdx := st1.execIdx + 1,
                            events := st1.events ++ [Event.exec cmd r.1 r.2] }
      match r.2 with
      | some m =>
        let block := if r.1 ≠ "" then "$ " ++ cmd ++ "\n" ++ r.1 ++ "\nError: " ++ m ++ "\n\n"
                     else "$ " ++ cmd ++ "\nError: " ++ m ++ "\n\n"
        ⟨rest, { st2 with log := st2.log ++ block, lastErr := some m }, false⟩
      | none =>
        drain C auto rest
          { st2 with log := st2.log ++ ("$ " ++ cmd ++ "\n" ++ r.1 ++ "\n\n"), lastErr := none }

/-- The code after the attempt loop of `executeCommandsIteratively`:
append the max-attempts marker when commands remain, attempt to store the
session once (failures only logged), and return the log with a nil error. -/
def finishTail (C : Collab) (maxA : Int) (q : List String) (st : SState) : RunOut :=
  let log1 := if q = [] then st.log
              else st.log ++ ("\nMax attempts (" ++ toString maxA ++
                ") reached. Remaining commands not executed.\n")
  ⟨log1, none, q, { st with log := log1, events := st.events ++ [Event.storeCall (C.store log1)] }⟩

/-- The attempt loop of `executeCommandsIteratively`, with the remaining
attempt count as fuel (the Go loop runs `attempt` from 1 to
`maxAttempts`).  Each round drains the queue, consults the evaluator
once, and either returns early (user denial, or goal achieved with a
successfully generated final answer), breaks to the tail, or replaces the
queue and continues. -/
def sessionLoop (C : Collab) (auto : Bool) (maxA : Int) (req : String) :
    Nat → List String → SState → RunOut
  | 0, q, st => finishTail C maxA q st
  | rem + 1, q, st =>
    if q = [] then finishTail C maxA q st
    else
      let d := drain C auto q st
      if d.cancelled then
        ⟨"Command execution cancelled by user.", none, d.queue, d.st⟩
      else
        let er := C.eval d.st.evalIdx d.st.log req d.queue d.st.lastErr.isSome
        let st2 := { d.st with evalIdx := d.st.evalIdx + 1,
                               events := d.st.events ++ [Event.evalCall er.next er.cont er.err] }
        match er.err with
        | some _ => finishTail C maxA d.queue st2
        | none =>
          if er.cont = false then
            if d.st.lastErr = none ∧ d.queue = [] then
              let fa := C.finalAnswer st2.faIdx st2.log req
              let st3 := { st2 with faIdx := st2.faIdx + 1,
                                    events := st2.events ++ [Event.finalAns fa.1 fa.2] }
              if fa.2 = none ∧ fa.1 ≠ "" then ⟨fa.1, none, d.queue, st3⟩
              else finishTail C maxA d.queue st3
            else finishTail C maxA d.queue st2
          else sessionLoop C auto maxA req rem er.next st2

/-- `Session.executeCommandsIteratively`. -/
def executeCommandsIteratively (C : Collab) (cfg : SessionConfig)
    (initialCommands : List String) (originalRequest : String) : RunOut :=
  let maxA : Int := if cfg.maxAttempts ≤ 0 then 3 else cfg.maxAttempts
  sessionLoop C cfg.autoApprove maxA originalRequest maxA.toNat initialCommands
    ⟨"", none, 0, 0, 0, 0, []⟩

/-- True on the persistence events of a trace. -/
def isStoreEvent : Event → Bool
  | Event.storeCall _ => true
  | _ => false

/-- Number of persistence attempts recorded in a trace. -/
def storeCount (evs : List Event) : Nat := evs.countP isStoreEvent

/-! ## Concrete collaborators used by the witness theorems -/

/-- Shell whose single-subprocess path fails with output `boom`. -/
def shellBoom : Shell :=
  { combined := fun c => if c = "boomcmd" then ("boom", some "exit status 1") else ("hi\n", none),
    run := fun _ _ _ => ⟨"", "", none⟩ }

/-- Shell for the pipeline witnesses: the stage `bad` fails, every other
stage succeeds with stdout `hi`. -/
def shellPipe : Shell :=
  { combined := fun _ => ("", none),
    run := fun _ part _ =>
      if part = "bad" then ⟨"", "oops", some "exit status 127"⟩ else ⟨"hi", "", none⟩ }

/-- Collaborators for the attempt-budget witness: every evaluation asks to
continue with one replacement command. -/
def collabBudget : Collab :=
  { stdin := fun _ => "", exec := fun _ _ => ("ok", none),
    eval := fun _ _ _ _ _ => ⟨["x"], true, none⟩,
    finalAnswer := fun _ _ _ => ("", none), store := fun _ => none }

def cfgBudget : SessionConfig := ⟨true, false, false, 2, 0, false⟩

/-- Collaborators for the denial witnesses: the user answers `n` to every
prompt. -/
def collabDeny : Collab :=
  { stdin := fun _ => "n", exec := fun _ _ => ("ok", none),
    eval := fun _ _ _ _ _ => ⟨[], false, none⟩,
    finalAnswer := fun _ _ _ => ("ans", none), store := fun _ => none }

def cfgDeny : SessionConfig := ⟨false, false, false, 3, 0, false⟩

/-! ## Substring lemmas -/

theorem chPre_iff (p l : List Char) : chPre p l = true ↔ ∃ t, l = p ++ t := by
  induction p generalizing l with
  | nil => simp [chPre]
  | cons a as ih =>
    cases l with
    | nil => simp [chPre]
    | cons b bs =>
      simp only [chPre, Bool.and_eq_true, beq_iff_eq, ih, List.cons_append, List.cons.injEq]
      constructor
      · rintro ⟨rfl, t, rfl⟩; exact ⟨t, rfl, rfl⟩
      · rintro ⟨t, rfl, rfl⟩; exact ⟨rfl, t, rfl⟩

theorem chSub_iff (p l : List Char) : chSub p l = true ↔ ∃ pre post, l = pre ++ p ++ post := by
  induction l with
  | nil =>
    simp only [chSub, chPre_iff]
    constructor
    · rintro ⟨t, ht⟩
      rcases List.append_eq_nil.mp ht.symm with ⟨rfl, rfl⟩
      exact ⟨[], [], rfl⟩
    · rintro ⟨pre, post, h⟩
      rcases List.append_eq_nil.mp h.symm with ⟨h1, rfl⟩
      rcases List.append_eq_nil.mp h1 with ⟨rfl, rfl⟩
      exact ⟨[], rfl⟩
  | cons c cs ih =>
    simp only [chSub, Bool.or_eq_true, chPre_iff, ih]
    constructor
    · rintro (⟨t, ht⟩ | ⟨pre, post, h⟩)
      · exact ⟨[], t, by simp [ht]⟩
      · exact ⟨c :: pre, post, by simp [h]⟩
    · rintro ⟨pre, post, h⟩
      cases pre with
      | nil => exact Or.inl ⟨post, by simpa using h⟩
      | cons x xs =>
        simp only [List.cons_append, List.cons.injEq] at h
        exact Or.inr ⟨xs, post, h.2⟩

theorem chSub_sandwich (pre p post : List Char) : chSub p (pre ++ p ++ post) = true :=
  (chSub_iff p _).mpr ⟨pre, post, rfl⟩

theorem chSub_nil (l : List Char) : chSub [] l = true :=
  (chSub_iff [] l).mpr ⟨[], l, by simp⟩

theorem chSub_trimL (p l : List Char) (hp : ∀ c ∈ p, goIsSpace c = false) :
    chSub p l = true → chSub p (trimL l) = true := by
  induction l with
  | nil => simp [trimL]
  | cons c cs ih =>
    intro h
    by_cases hc : goIsSpace c = true
    · have hor : chPre p (c :: cs) = true ∨ chSub p cs = true := by
        have h' := h; simp only [chSub, Bool.or_eq_true] at h'; exact h'
      have hrest : chSub p cs = true := by
        rcases hor with hpre | hsub
        · cases p with
          | nil => exact chSub_nil cs
          | cons a as =>
            rcases (chPre_iff _ _).mp hpre with ⟨t, ht⟩
            simp only [List.cons_append, List.cons.injEq] at ht
            have ha := hp a (by simp)
            rw [ht.1] at hc
            rw [ha] at hc
            cases hc
        · exact hsub
      simpa [trimL, hc] using ih hrest
    · simpa [trimL, hc] using h

theorem chSub_rev (p l : List Char) :
    chSub p l = true ↔ chSub p.reverse l.reverse = true := by
  simp only [chSub_iff]
  constructor
  · rintro ⟨pre, post, rfl⟩
    exact ⟨post.reverse, pre.reverse, by simp⟩
  · rintro ⟨pre, post, h⟩
    refine ⟨post.reverse, pre.reverse, ?_⟩
    have := congrArg List.reverse h
    simpa [List.append_assoc] using this

theorem chSub_trimR (p l : List Char) (hp : ∀ c ∈ p, goIsSpace c = false) :
    chSub p l = true → chSub p (trimR l) = true := by
  intro h
  have h1 : chSub p.reverse l.reverse = true := (chSub_rev p l).mp h
  have hp' : ∀ c ∈ p.reverse, goIsSpace c = false := by
    intro c hc; exact hp c (List.mem_reverse.mp hc)
  have h2 := chSub_trimL p.reverse l.reverse hp' h1
  have h2' : chSub p.reverse ((trimL l.reverse).reverse).reverse = true := by
    rw [List.reverse_reverse]; exact h2
  exact (chSub_rev p (trimL l.reverse).reverse).2 h2'

theorem toList_append (a b : String) : (a ++ b).toList = a.toList ++ b.toList := by
  cases a; cases b; rfl

theorem containsSub_sandwich (pre mid post : String) :
    containsSub (pre ++ mid ++ post) mid = true := by
  unfold containsSub
  rw [toList_append, toList_append]
  exact chSub_sandwich pre.toList mid.toList post.toList

theorem containsSub_append_right (a mid : String) :
    containsSub (a ++ mid) mid = true := by
  unfold containsSub
  rw [toList_append]
  have := chSub_sandwich a.toList mid.toList []
  simpa using this

theorem chSub_goTrim (p : List Char) (s : String) (hp : ∀ c ∈ p, goIsSpace c = false) :
    chSub p s.toList = true → chSub p (goTrimSpace s).toList = true := by
  intro h
  show chSub p (trimR (trimL s.toList)) = true
  exact chSub_trimR p _ hp (chSub_trimL p _ hp h)

theorem strAppend_assoc (a b c : String) : a ++ b ++ c = a ++ (b ++ c) := by
  cases a with | mk la => cases b with | mk lb => cases c with | mk lc =>
  show String.mk (la ++ lb ++ lc) = String.mk (la ++ (lb ++ lc))
  rw [List.append_assoc]

theorem containsSub_append_left (mid b : String) : containsSub (mid ++ b) mid = true := by
  unfold containsSub
  rw [toList_append]
  have := chSub_sandwich [] mid.toList b.toList
  simpa using this

theorem containsSub_empty (s : String) : containsSub s "" = true := chSub_nil s.toList

theorem strLen_zero (s : String) (h : ¬ s.length > 0) : s = "" := by
  cases s with | mk l =>
  have hl : l.length = 0 := by
    have : l.length ≤ 0 := Nat.le_of_not_lt (by simpa [String.length] using h)
    omega
  have : l = [] := List.length_eq_zero.mp hl
  rw [this]

theorem containsSub_of_toList (s mid : String) (pre post : List Char)
    (h : s.toList = pre ++ mid.toList ++ post) : containsSub s mid = true := by
  unfold containsSub
  rw [h]
  exact chSub_sandwich pre mid.toList post

theorem containsSub_goTrimSpace (s pat : String)
    (hp : ∀ c ∈ pat.toList, goIsSpace c = false) :
    containsSub s pat = true → containsSub (goTrimSpace s) pat = true :=
  chSub_goTrim pat.toList s hp

/-! ## Claim theorems -/

/-- C9: `IsValid` returns false for every line that is empty after
trimming, starts with `$`, `#` or `>`, contains an embedded newline,
contains the directory-listing artifacts `drwxr-xr-x` or `total `, parses
as a pure integer, or contains `Error:` or `command not found`. -/
theorem isValid_rejects_noise (cmd : String) :
    (goTrimSpace cmd = "" → IsValid cmd = false) ∧
    ((goHasPref cmd "$" = true ∨ goHasPref cmd "#" = true ∨ goHasPref cmd ">" = true) →
      IsValid cmd = false) ∧
    (containsSub cmd "\n" = true → IsValid cmd = false) ∧
    ((containsSub cmd "drwxr-xr-x" = true ∨ containsSub cmd "total " = true) →
      IsValid cmd = false) ∧
    (goAtoiOk (goTrimSpace cmd) = true → IsValid cmd = false) ∧
    ((containsSub cmd "Error:" = true ∨ containsSub cmd "command not found" = true) →
      IsValid cmd = false) := by
  refine ⟨?_, ?_, ?_, ?_, ?_, ?_⟩ <;>
    (intro h; unfold IsValid; split_ifs <;> try rfl) <;> simp_all

/-- C9 witness: concrete noisy lines of each rejected shape. -/
theorem isValid_rejects_noise_witness :
    IsValid "   " = false ∧ IsValid "$ ls -la" = false ∧
    IsValid "echo a\necho b" = false ∧ IsValid "total 48" = false ∧
    IsValid "-42" = false ∧ IsValid "zsh: command not found: foo" = false :=
  ⟨(isValid_rejects_noise "   ").1 (by decide),
   (isValid_rejects_noise "$ ls -la").2.1 (Or.inl (by decide)),
   (isValid_rejects_noise "echo a\necho b").2.2.1 (by decide),
   (isValid_rejects_noise "total 48").2.2.2.1 (Or.inr (by decide)),
   (isValid_rejects_noise "-42").2.2.2.2.1 (by decide),
   (isValid_rejects_noise "zsh: command not found: foo").2.2.2.2.2 (Or.inr (by decide))⟩

/-- C4 counterexample: the lowercase reply `none` is NOT treated as
termination — the no-queue branch returns it as a command with
`shouldContinue = true`, because the code compares against `"NONE"`
case-sensitively. -/
theorem evaluateNoQueue_lowercase_none_continues :
    evaluateNoQueue "none" = (["none"], true) ∧ evaluateNoQueue "none" ≠ ([], false) := by
  decide

/-- C4 (amended): in the no-queue branch, a reply equal to the exact
uppercase `NONE` after trimming, or empty after trimming, yields no next
commands and `shouldContinue = false`. -/
theorem evaluateNoQueue_terminates_on_exact_none (response : String)
    (h : goTrimSpace response = "NONE" ∨ goTrimSpace response = "") :
    evaluateNoQueue response = ([], false) := by
  unfold evaluateNoQueue determineNextCommands
  rcases h with h | h <;> simp [h]

/-- C4 witness: the amended termination rule at concrete replies. -/
theorem evaluateNoQueue_terminates_witness :
    evaluateNoQueue "  NONE " = ([], false) ∧ evaluateNoQueue "" = ([], false) :=
  ⟨evaluateNoQueue_terminates_on_exact_none "  NONE " (Or.inl (by decide)),
   evaluateNoQueue_terminates_on_exact_none "" (Or.inr (by decide))⟩

/-- C7: the goal check accepts any reply whose uppercasing contains
`YES`, `ACHIEVED` or `COMPLETED`; and when the request mentions time and
the log shows a `$ date` invocation with no `Error:`, it reports the goal
achieved regardless of the model's reply. -/
theorem checkGoalAchievement_liberal (response executionLog originalRequest : String) :
    ((containsSub (goToUpper response) "YES" = true ∨
      containsSub (goToUpper response) "ACHIEVED" = true ∨
      containsSub (goToUpper response) "COMPLETED" = true) →
      checkGoalAchievement response executionLog originalRequest = true) ∧
    ((containsSub (goToLower originalRequest) "time" = true ∧
      containsSub executionLog "$ date" = true ∧
      containsSub executionLog "Error:" = false) →
      checkGoalAchievement response executionLog originalRequest = true) := by
  constructor
  · intro h
    unfold checkGoalAchievement
    have hclean : containsSub (goTrimSpace (goToUpper response)) "YES" = true ∨
        containsSub (goTrimSpace (goToUpper response)) "ACHIEVED" = true ∨
        containsSub (goTrimSpace (goToUpper response)) "COMPLETED" = true := by
      rcases h with h | h | h
      · exact Or.inl (containsSub_goTrimSpace _ _ (by decide) h)
      · exact Or.inr (Or.inl (containsSub_goTrimSpace _ _ (by decide) h))
      · exact Or.inr (Or.inr (containsSub_goTrimSpace _ _ (by decide) h))
    rcases hclean with h' | h' | h' <;> simp [h']
  · rintro ⟨h1, h2, h3⟩
    unfold checkGoalAchievement
    simp [h1, h2, h3]

/-- C7 witness: a free-text affirmation, and a time question answered by
a successful `date` invocation despite a negative model reply. -/
theorem checkGoalAchievement_liberal_witness :
    checkGoalAchievement "The task was achieved." "" "list files" = true ∧
    checkGoalAchievement "NO" "$ date\nTue Jul 12\n\n" "what time is it" = true :=
  ⟨(checkGoalAchievement_liberal "The task was achieved." "" "list files").1
      (Or.inr (Or.inl (by decide))),
   (checkGoalAchievement_liberal "NO" "$ date\nTue Jul 12\n\n" "what time is it").2
      ⟨by decide, by decide, by decide⟩⟩

/-- C5 counterexample: for a non-piped command that exits non-zero the
returned error text is `command failed: <exit error>` and does not
include the captured output (which is returned separately as the output
string). -/
theorem execute_error_text_lacks_output :
    Execute shellBoom "boomcmd" = ("boom", some "command failed: exit status 1") ∧
    containsSub "command failed: exit status 1" "boom" = false := by
  decide

/-- C5 (amended): for every command without `" | "`, `Execute` runs it as
one shell subprocess and returns the combined stdout+stderr as the output
string; a non-zero exit additionally yields an error `command failed: `
followed by the exit error, while the captured output stays in the output
string. -/
theorem execute_single_command (sh : Shell) (cmdStr : String)
    (h : containsSub cmdStr " | " = false) :
    Execute sh cmdStr =
      ((sh.combined cmdStr).1,
       ((sh.combined cmdStr).2).map (fun e => "command failed: " ++ e)) := by
  unfold Execute
  cases he : (sh.combined cmdStr).2 with
  | none => simp [h, he]
  | some e => simp [h, he]

/-- C5 witness: the amended single-subprocess contract at concrete
successful and failing commands. -/
theorem execute_single_command_witness :
    containsSub "boomcmd" " | " = false ∧
    Execute shellBoom "boomcmd" = ("boom", some ("command failed: " ++ "exit status 1")) ∧
    Execute shellBoom "echo hi" = ("hi\n", none) := by
  refine ⟨by decide, ?_, ?_⟩
  · rw [execute_single_command shellBoom "boomcmd" (by decide)]; decide
  · rw [execute_single_command shellBoom "echo hi" (by decide)]; decide

/-- C6: in a piped command, a failure of the first stage yields an error
containing `command failed`; a failure of a later stage `i > 1`
(1-indexed) yields an error containing `pipe step i failed`, and the
returned diagnostic string contains the intermediate output accumulated
from the prior successful stages and the failing stage's stderr. -/
theorem pipeline_failure_attribution :
    (∀ (sh : Shell) (cmdStr p : String) (rest : List String) (e : String),
      containsSub cmdStr " | " = true →
      goSplit cmdStr " | " = p :: rest →
      rest ≠ [] →
      goTrimSpace p ≠ "" →
      (sh.run 0 (goTrimSpace p) none).err = some e →
      ∃ diag, Execute sh cmdStr = (diag, some ("command failed: " ++ e)))
    ∧
    (∀ (sh : Shell) (lastIdx : Nat) (p : String) (rest : List String) (i k : Nat)
       (cur details e : String),
      0 < i →
      goTrimSpace p ≠ "" →
      (sh.run k (goTrimSpace p) (if i > 0 && cur.length > 0 then some cur else none)).err
        = some e →
      ∃ diag msg,
        pipeLoop sh lastIdx (p :: rest) i k cur details = (diag, some msg) ∧
        containsSub msg ("pipe step " ++ toString (i + 1) ++ " failed") = true ∧
        containsSub diag cur = true ∧
        containsSub diag
          (sh.run k (goTrimSpace p)
            (if i > 0 && cur.length > 0 then some cur else none)).stderr = true) := by
  constructor
  · intro sh cmdStr p rest e hc hs hr hp he
    have hrl : 0 < rest.length := List.length_pos.mpr hr
    have hlen : ¬ (goSplit cmdStr " | ").length < 2 := by
      rw [hs]; simp only [List.length_cons]; omega
    unfold Execute executePipedCommand
    simp only [hc, if_true]
    rw [if_neg hlen, hs]
    simp only [pipeLoop]
    rw [if_neg hp]
    have h0 : (decide (0 > 0) && decide (("" : String).length > 0)) = false := by decide
    rw [h0]
    simp only [Bool.false_eq_true, if_false]
    rw [he]
    dsimp only
    rw [if_neg (Nat.lt_irrefl 0)]
    exact ⟨_, rfl⟩
  · intro sh lastIdx p rest i k cur details e hi hp he
    simp only [pipeLoop]
    rw [if_neg hp, he]
    dsimp only
    rw [if_pos hi]
    refine ⟨_, _, rfl, ?_, ?_, ?_⟩
    · apply containsSub_of_toList _ _ [] ((": " ++ e).toList)
      simp only [toList_append, List.nil_append, List.append_assoc]
      have hf : (" failed: ").toList = (" failed").toList ++ (": ").toList := by decide
      rw [hf]
      simp [List.append_assoc]
    · by_cases hcur : cur.length > 0
      · rw [if_pos hcur, ← strAppend_assoc]
        exact containsSub_append_right _ _
      · have hcur' : cur = "" := strLen_zero cur hcur
        rw [hcur']
        exact containsSub_empty _
    · set sd := (sh.run k (goTrimSpace p)
        (if i > 0 && cur.length > 0 then some cur else none)).stderr with hsd
      by_cases hne : sd ≠ ""
      · rw [if_pos hne]
        apply containsSub_of_toList _ _
          ((details ++ "Steps 1-" ++ toString i ++ " succeeded. " ++ "Step " ++
            toString (i + 1) ++ " failed: " ++ goTrimSpace p ++ " (stderr: ").toList)
          ((")" ++ (if cur.length > 0
            then "\nIntermediate output from previous steps:\n" ++ cur else "")).toList)
        simp [toList_append, List.append_assoc]
      · have : sd = "" := not_not.mp (by simpa using hne)
        rw [this]
        exact containsSub_empty _

/-- C6 witness: a concrete two-stage pipeline failing at stage 1, and a
concrete loop state failing at stage 2 with intermediate output and
stderr in the diagnostic. -/
theorem pipeline_failure_attribution_witness :
    (∃ diag, Execute shellPipe "bad | wc -w" = (diag, some ("command failed: " ++ "exit status 127"))) ∧
    (∃ diag msg,
      pipeLoop shellPipe 1 ["bad"] 1 1 "hi" "Step 1 (echo hi): 2 bytes of output\n" = (diag, some msg) ∧
      containsSub msg ("pipe step " ++ toString (1 + 1) ++ " failed") = true ∧
      containsSub diag "hi" = true ∧
      containsSub diag (shellPipe.run 1 (goTrimSpace "bad")
        (if 1 > 0 && ("hi" : String).length > 0 then some "hi" else none)).stderr = true) :=
  ⟨pipeline_failure_attribution.1 shellPipe "bad | wc -w" "bad" ["wc -w"] "exit status 127"
      (by decide) (by decide) (by decide) (by decide) (by decide),
   pipeline_failure_attribution.2 shellPipe 1 "bad" [] 1 1 "hi"
      "Step 1 (echo hi): 2 bytes of output\n" "exit status 127"
      (by decide) (by decide) (by decide)⟩

/-- C8: with no filesystem mutation between the calls, two consecutive
`DetectChanges` calls return the same change set, and neither call
mutates the stored snapshot. -/
theorem detectChanges_idempotent (cfg : AutoIndexCfg) (ai : AutoIndexerSt) (fs : FsView) :
    (DetectChanges cfg ai fs).1 = (DetectChanges cfg (DetectChanges cfg ai fs).2 fs).1 ∧
    (DetectChanges cfg ai fs).2.lastSnapshot = ai.lastSnapshot ∧
    (DetectChanges cfg (DetectChanges cfg ai fs).2 fs).2.lastSnapshot = ai.lastSnapshot :=
  ⟨rfl, rfl, rfl⟩

/-! ## Session-loop lemmas -/

theorem drain_not_cancelled (C : Collab) (auto : Bool)
    (happ : auto = true ∨ ∀ i, requestPermission (C.stdin i) = true) :
    ∀ (q : List String) (st : SState),
      (drain C auto q st).cancelled = false ∧
      (drain C auto q st).st.evalIdx = st.evalIdx := by
  intro q
  induction q with
  | nil => intro st; exact ⟨rfl, rfl⟩
  | cons cmd rest ih =>
    intro st
    have hg : (auto || requestPermission (C.stdin st.stdinIdx)) = true := by
      rcases happ with h | h
      · rw [h]; simp
      · rw [h st.stdinIdx]; simp
    simp only [drain, hg]
    generalize hA : (if auto = true then st else
      { st with stdinIdx := st.stdinIdx + 1,
                events := st.events ++
                  [Event.prompt cmd (requestPermission (C.stdin st.stdinIdx))] }) = stA
    have hAe : stA.evalIdx = st.evalIdx := by
      rw [← hA]; split <;> rfl
    cases hr : (C.exec stA.execIdx cmd).2 with
    | some m => simp [hr, hAe]
    | none =>
      simp only [hr, Bool.true_eq_false, if_false]
      refine ⟨(ih _).1, ?_⟩
      rw [(ih _).2]
      exact hAe

theorem sessionLoop_budget (C : Collab) (auto : Bool) (maxA : Int) (req : String)
    (happ : auto = true ∨ ∀ i, requestPermission (C.stdin i) = true)
    (heval : ∀ k lg rq rem he, ∃ cs, cs ≠ ([] : List String) ∧
      C.eval k lg rq rem he = ⟨cs, true, none⟩) :
    ∀ (rem : Nat) (q : List String) (st : SState), q ≠ [] →
      (sessionLoop C auto maxA req rem q st).st.evalIdx = st.evalIdx + rem ∧
      (sessionLoop C auto maxA req rem q st).queue ≠ [] ∧
      containsSub (sessionLoop C auto maxA req rem q st).result
        ("Max attempts (" ++ toString maxA ++ ") reached. Remaining commands not executed.")
        = true ∧
      (sessionLoop C auto maxA req rem q st).rerr = none := by
  intro rem
  induction rem with
  | zero =>
    intro q st hq
    simp only [sessionLoop, finishTail]
    simp only [if_neg hq]
    refine ⟨by rfl, hq, ?_, by trivial⟩
    apply containsSub_of_toList _ _ (st.log.toList ++ ['\n']) ['\n']
    have h1 : ("\nMax attempts (" : String).toList =
        '\n' :: ("Max attempts (" : String).toList := by decide
    have h2 : (") reached. Remaining commands not executed.\n" : String).toList =
        (") reached. Remaining commands not executed." : String).toList ++ ['\n'] := by decide
    simp only [toList_append, h1, h2]
    simp [List.append_assoc]
  | succ rem ih =>
    intro q st hq
    simp only [sessionLoop]
    simp only [if_neg hq]
    have hd := drain_not_cancelled C auto happ q st
    simp only [hd.1, Bool.false_eq_true, if_false]
    obtain ⟨cs, hcs, he⟩ := heval (drain C auto q st).st.evalIdx (drain C auto q st).st.log req
      (drain C auto q st).queue (drain C auto q st).st.lastErr.isSome
    simp only [he]
    simp only [Bool.true_eq_false, if_false]
    have hrec := ih cs
      { (drain C auto q st).st with
        evalIdx := (drain C auto q st).st.evalIdx + 1,
        events := (drain C auto q st).st.events ++ [Event.evalCall cs true none] } hcs
    refine ⟨?_, hrec.2.1, hrec.2.2.1, hrec.2.2.2⟩
    rw [hrec.1]
    have hst2 : ({ (drain C auto q st).st with
        evalIdx := (drain C auto q st).st.evalIdx + 1,
        events := (drain C auto q st).st.events ++ [Event.evalCall cs true none] } : SState).evalIdx
        = (drain C auto q st).st.evalIdx + 1 := rfl
    rw [hst2, hd.2]
    omega

/-- C1: with `maxAttempts ≥ 1`, a nonempty initial queue, approval flowing
(auto-approve or an always-approving user), and an Evaluator that always
returns `shouldContinue = true` with a nonempty replacement list and no
error, the iterative loop performs exactly `maxAttempts` drain-and-evaluate
rounds, stops with a nonempty command queue, appends the max-attempts
marker to the execution log, and returns a nil error. -/
theorem attempt_budget_exhaustion (C : Collab) (cfg : SessionConfig)
    (initial : List String) (req : String)
    (hmax : 1 ≤ cfg.maxAttempts) (hinit : initial ≠ [])
    (happ : cfg.autoApprove = true ∨ ∀ i, requestPermission (C.stdin i) = true)
    (heval : ∀ k lg rq rem he, ∃ cs, cs ≠ ([] : List String) ∧
      C.eval k lg rq rem he = ⟨cs, true, none⟩) :
    (executeCommandsIteratively C cfg initial req).st.evalIdx = cfg.maxAttempts.toNat ∧
    (executeCommandsIteratively C cfg initial req).queue ≠ [] ∧
    containsSub (executeCommandsIteratively C cfg initial req).result
      ("Max attempts (" ++ toString cfg.maxAttempts ++
        ") reached. Remaining commands not executed.") = true ∧
    (executeCommandsIteratively C cfg initial req).rerr = none := by
  have hA : (if cfg.maxAttempts ≤ 0 then 3 else cfg.maxAttempts) = cfg.maxAttempts := by
    rw [if_neg]; omega
  unfold executeCommandsIteratively
  simp only [hA]
  have h := sessionLoop_budget C cfg.autoApprove cfg.maxAttempts req happ heval
    cfg.maxAttempts.toNat initial ⟨"", none, 0, 0, 0, 0, []⟩ hinit
  refine ⟨?_, h.2.1, h.2.2.1, h.2.2.2⟩
  rw [h.1]
  show 0 + cfg.maxAttempts.toNat = cfg.maxAttempts.toNat
  omega

/-- C1 witness: two attempts with an always-continue evaluator stop after
exactly two evaluator rounds with one command left queued. -/
theorem attempt_budget_exhaustion_witness :
    (executeCommandsIteratively collabBudget cfgBudget ["a"] "r").st.evalIdx = 2 ∧
    (executeCommandsIteratively collabBudget cfgBudget ["a"] "r").queue ≠ [] ∧
    containsSub (executeCommandsIteratively collabBudget cfgBudget ["a"] "r").result
      ("Max attempts (" ++ toString (2 : Int) ++
        ") reached. Remaining commands not executed.") = true ∧
    (executeCommandsIteratively collabBudget cfgBudget ["a"] "r").rerr = none := by
  have h := attempt_budget_exhaustion collabBudget cfgBudget ["a"] "r"
    (by decide) (by decide) (Or.inl rfl)
    (fun k lg rq rem he => ⟨["x"], by decide, rfl⟩)
  exact h

theorem sessionLoop_rerr_none (C : Collab) (auto : Bool) (maxA : Int) (req : String) :
    ∀ (rem : Nat) (q : List String) (st : SState),
      (sessionLoop C auto maxA req rem q st).rerr = none := by
  intro rem
  induction rem with
  | zero => intro q st; rfl
  | succ rem ih =>
    intro q st
    simp only [sessionLoop]
    split
    · rfl
    · split
      · rfl
      · split
        · rfl
        · split
          · split
            · split
              · rfl
              · rfl
            · rfl
          · exact ih _ _

/-- C10: `executeCommandsIteratively` returns a nil error for every
configuration, every initial command list, every request and every
collaborator behavior — failures are absorbed into the returned text or
the log, never surfaced as an error to the caller. -/
theorem loop_returns_nil_error (C : Collab) (cfg : SessionConfig)
    (initial : List String) (req : String) :
    (executeCommandsIteratively C cfg initial req).rerr = none := by
  unfold executeCommandsIteratively
  exact sessionLoop_rerr_none C cfg.autoApprove _ req _ initial _

theorem drain_denial (C : Collab) (k : Nat)
    (hap : ∀ i, i < k → requestPermission (C.stdin i) = true)
    (hden : requestPermission (C.stdin k) = false) :
    ∀ (q : List String) (st : SState), st.stdinIdx ≤ k → st.execIdx = st.stdinIdx →
      ((drain C false q st).cancelled = true →
        (drain C false q st).st.stdinIdx = k + 1 ∧
        (drain C false q st).st.execIdx = k ∧
        ∃ c pre, (drain C false q st).st.events = pre ++ [Event.prompt c false]) ∧
      ((drain C false q st).cancelled = false →
        (drain C false q st).st.stdinIdx ≤ k ∧
        (drain C false q st).st.execIdx = (drain C false q st).st.stdinIdx) := by
  intro q
  induction q with
  | nil =>
    intro st h1 h2
    constructor
    · intro hc
      simp only [drain, Bool.false_eq_true] at hc
    · intro _
      exact ⟨h1, h2⟩
  | cons cmd rest ih =>
    intro st h1 h2
    by_cases hk : st.stdinIdx = k
    · have hg : requestPermission (C.stdin st.stdinIdx) = false := by rw [hk]; exact hden
      simp only [drain, hg, Bool.false_or, Bool.false_eq_true, if_false,
        eq_self_iff_true, if_true]
      constructor
      · intro _
        exact ⟨by show st.stdinIdx + 1 = k + 1; omega,
               by show st.execIdx = k; omega, cmd, st.events, rfl⟩
      · intro hc; cases hc
    · have hlt : st.stdinIdx < k := lt_of_le_of_ne h1 hk
      have hg : requestPermission (C.stdin st.stdinIdx) = true := hap _ hlt
      simp only [drain, hg, Bool.false_or, Bool.false_eq_true, if_false,
        Bool.true_eq_false]
      cases hr : (C.exec st.execIdx cmd).2 with
      | some m =>
        simp only [hr]
        constructor
        · intro hc; cases hc
        · intro _
          constructor
          · show st.stdinIdx + 1 ≤ k; omega
          · show st.execIdx + 1 = st.stdinIdx + 1; omega
      | none =>
        simp only [hr]
        exact ih _ (by show st.stdinIdx + 1 ≤ k; omega)
          (by show st.execIdx + 1 = st.stdinIdx + 1; omega)

theorem sessionLoop_denial (C : Collab) (maxA : Int) (req : String) (k : Nat)
    (hap : ∀ i, i < k → requestPermission (C.stdin i) = true)
    (hden : requestPermission (C.stdin k) = false) :
    ∀ (rem : Nat) (q : List String) (st : SState),
      st.stdinIdx ≤ k → st.execIdx = st.stdinIdx →
      ((sessionLoop C false maxA req rem q st).st.stdinIdx = k + 1 →
        (sessionLoop C false maxA req rem q st).result = "Command execution cancelled by user." ∧
        (sessionLoop C false maxA req rem q st).rerr = none ∧
        (sessionLoop C false maxA req rem q st).st.execIdx = k ∧
        ∃ c pre, (sessionLoop C false maxA req rem q st).st.events
          = pre ++ [Event.prompt c false]) ∧
      ((sessionLoop C false maxA req rem q st).st.stdinIdx ≠ k + 1 →
        (sessionLoop C false maxA req rem q st).st.stdinIdx ≤ k) := by
  have hfin : ∀ (q' : List String) (st' : SState), st'.stdinIdx ≤ k →
      ((finishTail C maxA q' st').st.stdinIdx = k + 1 →
        (finishTail C maxA q' st').result = "Command execution cancelled by user." ∧
        (finishTail C maxA q' st').rerr = none ∧
        (finishTail C maxA q' st').st.execIdx = k ∧
        ∃ c pre, (finishTail C maxA q' st').st.events = pre ++ [Event.prompt c false]) ∧
      ((finishTail C maxA q' st').st.stdinIdx ≠ k + 1 →
        (finishTail C maxA q' st').st.stdinIdx ≤ k) := by
    intro q' st' hle
    constructor
    · intro hEq
      have hEq' : st'.stdinIdx = k + 1 := hEq
      exact absurd hEq' (by omega)
    · intro _
      exact hle
  intro rem
  induction rem with
  | zero =>
    intro q st h1 h2
    exact hfin q st h1
  | succ rem ih =>
    intro q st h1 h2
    by_cases hq : q = []
    · simp only [sessionLoop, if_pos hq]
      exact hfin q st h1
    · simp only [sessionLoop, if_neg hq]
      have hd := drain_denial C k hap hden q st h1 h2
      by_cases hc : (drain C false q st).cancelled = true
      · simp only [hc, eq_self_iff_true, if_true]
        obtain ⟨hs1, hs2, c, pre, hs3⟩ := hd.1 hc
        constructor
        · intro _
          exact ⟨by trivial, by trivial, hs2, c, pre, hs3⟩
        · intro hne
          exact absurd hs1 hne
      · have hc' : (drain C false q st).cancelled = false := by
          cases hcv : (drain C false q st).cancelled
          · rfl
          · exact absurd hcv hc
        simp only [hc', Bool.false_eq_true, if_false]
        have hd2 := hd.2 hc'
        cases he : (C.eval (drain C false q st).st.evalIdx (drain C false q st).st.log req
            (drain C false q st).queue (drain C false q st).st.lastErr.isSome).err with
        | some m =>
          dsimp only
          exact hfin _ _ (show (drain C false q st).st.stdinIdx ≤ k from hd2.1)
        | none =>
          dsimp only
          by_cases hcont : (C.eval (drain C false q st).st.evalIdx (drain C false q st).st.log req
              (drain C false q st).queue (drain C false q st).st.lastErr.isSome).cont = false
          · simp only [hcont, eq_self_iff_true, if_true]
            by_cases hbr : (drain C false q st).st.lastErr = none ∧ (drain C false q st).queue = []
            · simp only [if_pos hbr]
              split
              · constructor
                · intro hEq
                  have hEq' : (drain C false q st).st.stdinIdx = k + 1 := hEq
                  exact absurd hEq' (by have := hd2.1; omega)
                · intro _
                  exact (show (drain C false q st).st.stdinIdx ≤ k from hd2.1)
              · exact hfin _ _ (show (drain C false q st).st.stdinIdx ≤ k from hd2.1)
            · simp only [if_neg hbr]
              exact hfin _ _ (show (drain C false q st).st.stdinIdx ≤ k from hd2.1)
          · have hcont' : (C.eval (drain C false q st).st.evalIdx (drain C false q st).st.log req
                (drain C false q st).queue (drain C false q st).st.lastErr.isSome).cont = true := by
              cases hcv : (C.eval (drain C false q st).st.evalIdx (drain C false q st).st.log req
                  (drain C false q st).queue (drain C false q st).st.lastErr.isSome).cont
              · exact absurd hcv hcont
              · rfl
            simp only [hcont', Bool.true_eq_false, if_false]
            exact ih _ _ (show (drain C false q st).st.stdinIdx ≤ k from hd2.1)
              (show (drain C false q st).st.execIdx = (drain C false q st).st.stdinIdx from hd2.2)

/-- C2: without auto-approve, when the user approves the first `k`
prompts and denies the `k`-th (0-based) — which an empty reply never
does, since empty input is approval, while `n`/`no` deny — any run whose
`k`-th prompt was reached returns `Command execution cancelled by user.`
with a nil error immediately: exactly `k` commands were executed, the
denial is the final recorded event, so no later command runs and the
Evaluator is never invoked after the denial. -/
theorem user_denial_cancels_session (C : Collab) (cfg : SessionConfig)
    (initial : List String) (req : String) (k : Nat)
    (hauto : cfg.autoApprove = false)
    (hap : ∀ i, i < k → requestPermission (C.stdin i) = true)
    (hden : requestPermission (C.stdin k) = false) :
    ((executeCommandsIteratively C cfg initial req).st.stdinIdx = k + 1 →
      (executeCommandsIteratively C cfg initial req).result
        = "Command execution cancelled by user." ∧
      (executeCommandsIteratively C cfg initial req).rerr = none ∧
      (executeCommandsIteratively C cfg initial req).st.execIdx = k ∧
      ∃ c pre, (executeCommandsIteratively C cfg initial req).st.events
        = pre ++ [Event.prompt c false]) ∧
    requestPermission "" = true ∧ requestPermission "n" = false ∧
    requestPermission "no" = false := by
  have hrw : executeCommandsIteratively C cfg initial req =
      sessionLoop C false (if cfg.maxAttempts ≤ 0 then 3 else cfg.maxAttempts) req
        (if cfg.maxAttempts ≤ 0 then 3 else cfg.maxAttempts).toNat initial
        ⟨"", none, 0, 0, 0, 0, []⟩ := by
    unfold executeCommandsIteratively
    rw [hauto]
  refine ⟨?_, by decide, by decide, by decide⟩
  rw [hrw]
  exact (sessionLoop_denial C _ req k hap hden _ initial _ (Nat.zero_le k) rfl).1

/-- C2 witness: three queued commands and a user who denies the first
prompt — the session cancels with no command executed and empty input
counts as approval. -/
theorem user_denial_cancels_session_witness :
    (executeCommandsIteratively collabDeny cfgDeny ["a", "b", "c"] "r").result
      = "Command execution cancelled by user." ∧
    (executeCommandsIteratively collabDeny cfgDeny ["a", "b", "c"] "r").rerr = none ∧
    (executeCommandsIteratively collabDeny cfgDeny ["a", "b", "c"] "r").st.execIdx = 0 ∧
    requestPermission "" = true := by
  have h := user_denial_cancels_session collabDeny cfgDeny ["a", "b", "c"] "r" 0
    rfl (fun i hi => absurd hi (Nat.not_lt_zero i)) (by decide)
  have h0 : (executeCommandsIteratively collabDeny cfgDeny ["a", "b", "c"] "r").st.stdinIdx
      = 0 + 1 := by decide
  obtain ⟨h1, h2, h3, _⟩ := h.1 h0
  exact ⟨h1, h2, h3, h.2.1⟩

theorem drain_storeCount (C : Collab) (auto : Bool) :
    ∀ (q : List String) (st : SState),
      storeCount (drain C auto q st).st.events = storeCount st.events ∧
      ((drain C auto q st).cancelled = true →
        ∃ c pre, (drain C auto q st).st.events = pre ++ [Event.prompt c false]) := by
  intro q
  induction q with
  | nil =>
    intro st
    constructor
    · rfl
    · intro hc
      simp only [drain, Bool.false_eq_true] at hc
  | cons cmd rest ih =>
    intro st
    cases auto with
    | true =>
      simp only [drain, Bool.true_or, Bool.true_eq_false, if_false, eq_self_iff_true, if_true]
      cases hr : (C.exec st.execIdx cmd).2 with
      | some m =>
        simp only [hr]
        constructor
        · simp [storeCount, List.countP_append, isStoreEvent]
        · intro hc; cases hc
      | none =>
        simp only [hr]
        constructor
        · exact ((ih _).1).trans (by simp [storeCount, List.countP_append, isStoreEvent])
        · exact (ih _).2
    | false =>
      by_cases hg : requestPermission (C.stdin st.stdinIdx) = true
      · simp only [drain, hg, Bool.false_or, Bool.true_eq_false, if_false,
          Bool.false_eq_true, eq_self_iff_true, if_true]
        cases hr : (C.exec st.execIdx cmd).2 with
        | some m =>
          simp only [hr]
          constructor
          · simp [storeCount, List.countP_append, isStoreEvent]
          · intro hc; cases hc
        | none =>
          simp only [hr]
          constructor
          · exact ((ih _).1).trans (by simp [storeCount, List.countP_append, isStoreEvent])
          · exact (ih _).2
      · have hg' : requestPermission (C.stdin st.stdinIdx) = false := by
          cases hgv : requestPermission (C.stdin st.stdinIdx)
          · rfl
          · exact absurd hgv hg
        simp only [drain, hg', Bool.false_or, Bool.false_eq_true, if_false,
          eq_self_iff_true, if_true]
        constructor
        · simp [storeCount, List.countP_append, isStoreEvent]
        · intro _
          exact ⟨cmd, st.events, rfl⟩

theorem storeCount_append_single (evs : List Event) (e : Event)
    (h : isStoreEvent e = false) (h0 : storeCount evs = 0) :
    storeCount (evs ++ [e]) = 0 := by
  simp [storeCount, List.countP_append, List.countP_cons, h]
  simpa [storeCount] using h0

theorem storeCount_append_store (evs : List Event) (s : Option String)
    (h0 : storeCount evs = 0) :
    storeCount (evs ++ [Event.storeCall s]) = 1 := by
  simp [storeCount, List.countP_append, List.countP_cons, isStoreEvent]
  simpa [storeCount] using h0

theorem sessionLoop_storeOnce (C : Collab) (auto : Bool) (maxA : Int) (req : String) :
    ∀ (rem : Nat) (q : List String) (st : SState), storeCount st.events = 0 →
      (storeCount (sessionLoop C auto maxA req rem q st).st.events = 1 ∧
        ∃ pre e2, (sessionLoop C auto maxA req rem q st).st.events
          = pre ++ [Event.storeCall e2]) ∨
      (storeCount (sessionLoop C auto maxA req rem q st).st.events = 0 ∧
        ((∃ c pre, (sessionLoop C auto maxA req rem q st).st.events
            = pre ++ [Event.prompt c false]) ∨
         (∃ a pre, (sessionLoop C auto maxA req rem q st).st.events
            = pre ++ [Event.finalAns a none] ∧ a ≠ ""))) := by
  have hfin : ∀ (q' : List String) (st' : SState), storeCount st'.events = 0 →
      (storeCount (finishTail C maxA q' st').st.events = 1 ∧
        ∃ pre e2, (finishTail C maxA q' st').st.events = pre ++ [Event.storeCall e2]) ∨
      (storeCount (finishTail C maxA q' st').st.events = 0 ∧
        ((∃ c pre, (finishTail C maxA q' st').st.events = pre ++ [Event.prompt c false]) ∨
         (∃ a pre, (finishTail C maxA q' st').st.events
            = pre ++ [Event.finalAns a none] ∧ a ≠ ""))) := by
    intro q' st' h0
    left
    constructor
    · exact storeCount_append_store st'.events _ h0
    · exact ⟨st'.events, _, rfl⟩
  intro rem
  induction rem with
  | zero =>
    intro q st h0
    exact hfin q st h0
  | succ rem ih =>
    intro q st h0
    by_cases hq : q = []
    · simp only [sessionLoop, if_pos hq]
      exact hfin q st h0
    · simp only [sessionLoop, if_neg hq]
      have hd := drain_storeCount C auto q st
      have h0d : storeCount (drain C auto q st).st.events = 0 := hd.1.trans h0
      by_cases hc : (drain C auto q st).cancelled = true
      · simp only [hc, eq_self_iff_true, if_true]
        right
        obtain ⟨c, pre, hev⟩ := hd.2 hc
        exact ⟨h0d, Or.inl ⟨c, pre, hev⟩⟩
      · have hc' : (drain C auto q st).cancelled = false := by
          cases hcv : (drain C auto q st).cancelled
          · rfl
          · exact absurd hcv hc
        simp only [hc', Bool.false_eq_true, if_false]
        cases he : (C.eval (drain C auto q st).st.evalIdx (drain C auto q st).st.log req
            (drain C auto q st).queue (drain C auto q st).st.lastErr.isSome).err with
        | some m =>
          dsimp only
          exact hfin _ _ (storeCount_append_single _ _ rfl h0d)
        | none =>
          dsimp only
          by_cases hcont : (C.eval (drain C auto q st).st.evalIdx (drain C auto q st).st.log req
              (drain C auto q st).queue (drain C auto q st).st.lastErr.isSome).cont = false
          · simp only [hcont, eq_self_iff_true, if_true]
            by_cases hbr : (drain C auto q st).st.lastErr = none ∧ (drain C auto q st).queue = []
            · simp only [if_pos hbr]
              split_ifs with hfa
              · right
                constructor
                · exact storeCount_append_single _ _ rfl
                    (storeCount_append_single _ _ rfl h0d)
                · right
                  exact ⟨_, _, by rw [hfa.1], hfa.2⟩
              · exact hfin _ _ (storeCount_append_single _ _ rfl
                  (storeCount_append_single _ _ rfl h0d))
            · simp only [if_neg hbr]
              exact hfin _ _ (storeCount_append_single _ _ rfl h0d)
          · have hcont' : (C.eval (drain C auto q st).st.evalIdx (drain C auto q st).st.log req
                (drain C auto q st).queue (drain C auto q st).st.lastErr.isSome).cont = true := by
              cases hcv : (C.eval (drain C auto q st).st.evalIdx (drain C auto q st).st.log req
                  (drain C auto q st).queue (drain C auto q st).st.lastErr.isSome).cont
              · exact absurd hcv hcont
              · rfl
            simp only [hcont', Bool.true_eq_false, if_false]
            exact ih _ _ (storeCount_append_single _ _ rfl h0d)

/-- C3 counterexample: a session terminated by user denial performs no
persistence attempt at all — the store collaborator is called zero times,
not exactly once. -/
theorem persistence_skipped_on_denial :
    storeCount (executeCommandsIteratively collabDeny cfgDeny ["ls"] "q").st.events ≠ 1 ∧
    storeCount (executeCommandsIteratively collabDeny cfgDeny ["ls"] "q").st.events = 0 := by
  decide

/-- C3 (amended): per top-level request the transcript is persisted at
most once: exactly once when the attempt loop reaches its normal exit
(budget exhaustion, evaluator error, or stop without a successful final
answer), with the store call as the final recorded event; and zero times
when the run ends early on a user denial or on goal achievement with a
successfully generated non-empty final answer, whose event then ends the
trace. -/
theorem persistence_once_on_normal_exit (C : Collab) (cfg : SessionConfig)
    (initial : List String) (req : String) :
    (storeCount (executeCommandsIteratively C cfg initial req).st.events = 1 ∧
      ∃ pre e2, (executeCommandsIteratively C cfg initial req).st.events
        = pre ++ [Event.storeCall e2]) ∨
    (storeCount (executeCommandsIteratively C cfg initial req).st.events = 0 ∧
      ((∃ c pre, (executeCommandsIteratively C cfg initial req).st.events
          = pre ++ [Event.prompt c false]) ∨
       (∃ a pre, (executeCommandsIteratively C cfg initial req).st.events
          = pre ++ [Event.finalAns a none] ∧ a ≠ ""))) := by
  unfold executeCommandsIteratively
  exact sessionLoop_storeOnce C cfg.autoApprove _ req _ initial ⟨"", none, 0, 0, 0, 0, []⟩ rfl

end RagCli
